import Mathlib

/-!
Verification of the HEIC fallback decoder core of the Photobook app
(`src/app.js`, lines 780-881): ISOBMFF box parsing, `iloc` item location,
codec-descriptor string construction, Annex-B bitstream reformatting, the
single-shot decode adapter, and the fallback orchestrator.

Buffers are modelled as `List Nat`; the source operates on `Uint8Array`,
whose elements are always in `0..255`.  Out-of-range indexing yields
`undefined` in JS, which all the bitwise readers coerce to `0`; this is
modelled by `List.getD _ _ 0`.
-/

namespace Photobook

/-- Byte access `d[p]` on a `Uint8Array`: out-of-bounds reads behave as 0
under the source's bitwise operators. -/
def get8 (d : List Nat) (p : Nat) : Nat := d.getD p 0

/-- `r16(d,p)`: big-endian 16-bit read (`(d[p]<<8)|d[p+1]`). -/
def r16 (d : List Nat) (p : Nat) : Nat := get8 d p * 256 + get8 d (p + 1)

/-- `r32(d,p)`: big-endian 32-bit read, forced unsigned by `>>>0` in the
source. -/
def r32 (d : List Nat) (p : Nat) : Nat :=
  get8 d p * 16777216 + get8 d (p + 1) * 65536 + get8 d (p + 2) * 256 + get8 d (p + 3)

/-- `r64(d,p) = r32(d,p)*4294967296 + r32(d,p+4)`. -/
def r64 (d : List Nat) (p : Nat) : Nat := r32 d p * 4294967296 + r32 d (p + 4)

/-- `fcc(d,p)`: the four-character code `String.fromCharCode(d[p..p+3])`. -/
def fcc (d : List Nat) (p : Nat) : String :=
  String.mk [Char.ofNat (get8 d p), Char.ofNat (get8 d (p + 1)),
             Char.ofNat (get8 d (p + 2)), Char.ofNat (get8 d (p + 3))]

/-- A parsed ISOBMFF box `{type:t, s:p, e:p+sz, d:p+hdr}`: start, end and
payload-start offsets into the source buffer. -/
structure Box where
  type : String
  s : Nat
  e : Nat
  d : Nat
deriving DecidableEq

/-- The size/header computation at scan position `p`: a 32-bit size and an
8-byte header, switching to the 64-bit extended size (16-byte header) when
the 32-bit field is 1, and to `e - p` (box extends to the end of the scan
range) when the resulting size is 0. -/
def boxSizeHdr (d : List Nat) (e p : Nat) : Nat × Nat :=
  let sz0 := r32 d p
  let hdr := if sz0 = 1 then 16 else 8
  let sz1 := if sz0 = 1 then r64 d (p + 8) else sz0
  (if sz1 = 0 then e - p else sz1, hdr)

/-- The scan loop of `parseBoxes`: while at least a short header remains,
read size and type, reject (stop) if the declared size is below the header
length or overruns `e`, otherwise record the box and advance by the size. -/
def parseBoxesAux (d : List Nat) (e p : Nat) : List Box :=
  if _h1 : p + 8 ≤ e then
    if _h2 : (boxSizeHdr d e p).1 < (boxSizeHdr d e p).2 ∨ e < p + (boxSizeHdr d e p).1 then
      []
    else
      ⟨fcc d (p + 4), p, p + (boxSizeHdr d e p).1, p + (boxSizeHdr d e p).2⟩ ::
        parseBoxesAux d e (p + (boxSizeHdr d e p).1)
  else []
termination_by e - p
decreasing_by
  have h8 : 8 ≤ (boxSizeHdr d e p).2 := by
    simp only [boxSizeHdr]
    split <;> omega
  omega

/-- `parseBoxes(d,s,e)` from the source. -/
def parseBoxes (d : List Nat) (s e : Nat) : List Box := parseBoxesAux d e s

/-- `findBox(d,s,e,t)`: first direct child with the given type. -/
def findBox (d : List Nat) (s e : Nat) (t : String) : Option Box :=
  (parseBoxes d s e).find? (fun b => b.type = t)

/-- The scan relation of the `parseBoxes` loop: `Scan d e p m l` holds when
scanning from `p` with range end `e` accepts exactly the boxes `l` (each
passing the loop's size checks, sizes computed precisely as the loop does)
and leaves the cursor at `m`.  `Scan d e s e l` is a size-prefixed box
sequence whose declared sizes sum exactly to the range: a valid sequence. -/
inductive Scan (d : List Nat) (e : Nat) : Nat → Nat → List Box → Prop where
  | refl (p : Nat) : Scan d e p p []
  | step (p m : Nat) (l : List Box)
      (h1 : p + 8 ≤ e)
      (h2 : ¬((boxSizeHdr d e p).1 < (boxSizeHdr d e p).2 ∨ e < p + (boxSizeHdr d e p).1))
      (h3 : Scan d e (p + (boxSizeHdr d e p).1) m l) :
      Scan d e p m
        (⟨fcc d (p + 4), p, p + (boxSizeHdr d e p).1, p + (boxSizeHdr d e p).2⟩ :: l)

/-- `Tiling s e l`: the boxes of `l` exactly tile the range `[s,e)` —
the first box starts at `s`, each box is nonempty and is followed
immediately by the next, and the last box ends at `e`. -/
def Tiling : Nat → Nat → List Box → Prop
  | s, e, [] => s = e
  | s, e, b :: l => b.s = s ∧ s < b.e ∧ Tiling b.e e l

/-- The loop's stop condition at position `m`: fewer than 8 bytes remain,
or the declared size is smaller than the header length, or the box would
extend past `e`. -/
def StopAt (d : List Nat) (e m : Nat) : Prop :=
  e < m + 8 ∨ (boxSizeHdr d e m).1 < (boxSizeHdr d e m).2 ∨ e < m + (boxSizeHdr d e m).1

/-! ### Item location (`iloc`) parsing

The item loop of `decodeHEICwithVideoDecoder` (src/app.js lines 840-853):
per item read the id (16- or 32-bit by version), skip the
construction-method field for versions 1 and 2 and the 2-byte
data-reference index, read the base offset only when the declared
`base_offset_size` is 4 or 8 (otherwise 0 and no bytes consumed), then per
extent read the offset and length the same way, recording
`base + offset` / `length` whenever the item id equals the primary id. -/

/-- Cursor and the chunk location recorded so far.  The source initialises
`chunkOffset = chunkLength = -1` as not-found sentinels, hence `Int`. -/
structure IlocState where
  ip : Nat
  chunkOffset : Int
  chunkLength : Int
deriving DecidableEq

/-- The value a sized field contributes: the source reads a 32-bit word
when the declared size nibble is 4, a 64-bit word when it is 8, and
otherwise contributes 0 without reading
(`if(sz===4){v=r32(...)}else if(sz===8){v=r64(...)}`). -/
def readSz (d : List Nat) (p sz : Nat) : Nat :=
  if sz = 4 then r32 d p else if sz = 8 then r64 d p else 0

/-- The cursor advance matching `readSz`: 4, 8, or 0 bytes. -/
def advSz (sz : Nat) : Nat := if sz = 4 then 4 else if sz = 8 then 8 else 0

/-- The extent loop (lines 847-853). -/
def parseExtents (d : List Nat) (offSz lenSz primaryId id base : Nat) :
    Nat → IlocState → IlocState
  | 0, st => st
  | n + 1, st =>
      let off := readSz d st.ip offSz
      let ip1 := st.ip + advSz offSz
      let elen := readSz d ip1 lenSz
      let ip2 := ip1 + advSz lenSz
      let st' : IlocState :=
        if id = primaryId then ⟨ip2, ((base + off : Nat) : Int), ((elen : Nat) : Int)⟩
        else ⟨ip2, st.chunkOffset, st.chunkLength⟩
      parseExtents d offSz lenSz primaryId id base n st'

/-- The item loop (lines 841-853). -/
def parseItems (d : List Nat) (ilocVer offSz lenSz baseSz primaryId : Nat) :
    Nat → IlocState → IlocState
  | 0, st => st
  | n + 1, st =>
      let id := if ilocVer < 2 then r16 d st.ip else r32 d st.ip
      let ip0 := st.ip + (if ilocVer < 2 then 2 else 4)
      let ip1 := ip0 + (if ilocVer = 1 ∨ ilocVer = 2 then 2 else 0) + 2
      let base := readSz d ip1 baseSz
      let ip2 := ip1 + advSz baseSz
      let extCnt := r16 d ip2
      let st' := parseExtents d offSz lenSz primaryId id base extCnt
        ⟨ip2 + 2, st.chunkOffset, st.chunkLength⟩
      parseItems d ilocVer offSz lenSz baseSz primaryId n st'

/-- Big-endian read of `n` bytes starting at `p` (0 when `n = 0`). -/
def readBE (d : List Nat) (p : Nat) : Nat → Nat
  | 0 => 0
  | n + 1 => readBE d p n * 256 + get8 d (p + n)

/-- Modelled from the spec's words for comparison with `parseExtents`:
"for each extent read `offset_size` bytes (extent offset) and
`length_size` bytes (extent length)" for any declared nibble value. -/
def specParseExtents (d : List Nat) (offSz lenSz primaryId id base : Nat) :
    Nat → IlocState → IlocState
  | 0, st => st
  | n + 1, st =>
      let off := readBE d st.ip offSz
      let ip1 := st.ip + offSz
      let elen := readBE d ip1 lenSz
      let ip2 := ip1 + lenSz
      let st' : IlocState :=
        if id = primaryId then ⟨ip2, ((base + off : Nat) : Int), ((elen : Nat) : Int)⟩
        else ⟨ip2, st.chunkOffset, st.chunkLength⟩
      specParseExtents d offSz lenSz primaryId id base n st'

/-- Modelled from the spec's words for comparison with `parseItems`:
"read `base_offset_size` bytes as the item's base offset (0 if size is
0)", for any declared nibble value. -/
def specParseItems (d : List Nat) (ilocVer offSz lenSz baseSz primaryId : Nat) :
    Nat → IlocState → IlocState
  | 0, st => st
  | n + 1, st =>
      let id := if ilocVer < 2 then r16 d st.ip else r32 d st.ip
      let ip0 := st.ip + (if ilocVer < 2 then 2 else 4)
      let ip1 := ip0 + (if ilocVer = 1 ∨ ilocVer = 2 then 2 else 0) + 2
      let base := readBE d ip1 baseSz
      let ip2 := ip1 + baseSz
      let extCnt := r16 d ip2
      let st' := specParseExtents d offSz lenSz primaryId id base extCnt
        ⟨ip2 + 2, st.chunkOffset, st.chunkLength⟩
      specParseItems d ilocVer offSz lenSz baseSz primaryId n st'

/-! ### Codec identifier string (line 859-860) -/

/-- Line 860: `hvc1.${['','A','B','C'][ps]}${pidc}.4.${tier?'H':'L'}${lvl}.B0`. -/
def codecString (ps tier pidc lvl : Nat) : String :=
  "hvc1." ++ ["", "A", "B", "C"].getD ps "" ++ toString pidc ++ ".4." ++
    (if tier = 0 then "L" else "H") ++ toString lvl ++ ".B0"

/-- Line 859: field extraction from the `hvcC` payload bytes —
`ps=(hvcC[1]>>6)&3`, `tier=(hvcC[1]>>5)&1`, `pidc=hvcC[1]&0x1f`,
`lvl=hvcC[12]` — then the string of line 860. -/
def codecFromHvcC (hvcC : List Nat) : String :=
  codecString ((get8 hvcC 1 >>> 6) &&& 3) ((get8 hvcC 1 >>> 5) &&& 1)
    (get8 hvcC 1 &&& 31) (get8 hvcC 12)

/-! ### Annex-B reformatter (lines 863-869) -/

/-- The 4-byte start code `00 00 00 01`. -/
def SC : List Nat := [0, 0, 0, 1]

/-- `raw.slice(a, b)` for an in-bounds, non-reversed range. -/
def sliceL (l : List Nat) (a b : Nat) : List Nat := (l.drop a).take (b - a)

/-- The length accumulator `for(b=0..n-1) nl=(nl<<8)|raw[ri+b]` of line
867, on the unsigned 32-bit representative of the signed JS value: each
step keeps the low 32 bits.  The JS value `nl` is negative exactly when
this representative is at least `2^31`. -/
def nlFold (raw : List Nat) (ri : Nat) : Nat → Nat
  | 0 => 0
  | n + 1 => (nlFold raw ri n * 256 + get8 raw (ri + n)) % 4294967296

/-- The chunk walk of line 867: while `naluLenSize` bytes remain, read the
length; stop on a zero or negative (`nl<=0`) or overrunning length;
otherwise emit the start code and the `nl` raw bytes and advance. -/
def chunkParts (raw : List Nat) (n : Nat) (ri : Nat) : List (List Nat) :=
  if _h1 : ri + n ≤ raw.length then
    if _h2 : nlFold raw ri n = 0 ∨ 2147483648 ≤ nlFold raw ri n then []
    else if _h3 : raw.length < ri + n + nlFold raw ri n then []
    else SC :: sliceL raw (ri + n) (ri + n + nlFold raw ri n) ::
      chunkParts raw n (ri + n + nlFold raw ri n)
  else []
termination_by raw.length - ri
decreasing_by omega

/-- Lines 865-867 build `parts`: the start code and NAL pairs for each
parameter-set NAL, then the chunk walk's segments. -/
def reformatParts (psNALs : List (List Nat)) (raw : List Nat) (n : Nat) : List (List Nat) :=
  (psNALs.flatMap (fun ps => [SC, ps])) ++ chunkParts raw n 0

/-- Line 868: `tot = parts.reduce((n,p) => n + p.length, 0)`. -/
def totLen (parts : List (List Nat)) : Nat := parts.foldl (fun n p => n + p.length) 0

/-- `annexB.set(part, off)`: overwrite `part.length` bytes at `off`. -/
def writeAt (buf : List Nat) (off : Nat) (part : List Nat) : List Nat :=
  buf.take off ++ part ++ buf.drop (off + part.length)

/-- Lines 868-869: the copy loop
`for(part of parts){annexB.set(part,off); off += part.length}`. -/
def copyParts : List (List Nat) → Nat → List Nat → List Nat
  | [], _, buf => buf
  | p :: ps, off, buf => copyParts ps (off + p.length) (writeAt buf off p)

/-- Line 868: allocate `new Uint8Array(tot)` (zero-filled) and run the
copy loop over it. -/
def mkAnnexB (parts : List (List Nat)) : List Nat :=
  copyParts parts 0 (List.replicate (totLen parts) 0)

/-- The whole reformatter: parameter-set NALs, chunk bytes and
`naluLenSize` to one contiguous Annex-B byte buffer. -/
def buildAnnexB (psNALs : List (List Nat)) (raw : List Nat) (n : Nat) : List Nat :=
  mkAnnexB (reformatParts psNALs raw n)

/-! ### Fallback orchestrator `readImageToDataURL` (lines 780-795) -/

/-- Outcome of one decode tier: the data URL it produced, or its error. -/
inductive TierResult where
  | ok (v : String)
  | err (msg : String)
deriving DecidableEq

/-- The three tiers, in source order. -/
inductive Tier where
  | nativeBitmapDecode
  | tagBasedDecode
  | hevcManualDecode
deriving DecidableEq

/-- The orchestrator's result: a tier's value, a tier-internal error
surfaced to the caller, or the terminal `HEIC_UNSUPPORTED` condition. -/
inductive Outcome where
  | ok (v : String)
  | tierError (msg : String)
  | heicUnsupported
deriving DecidableEq

/-- Line 783: HEIC classification by file extension
(`/\.(heic|heif)$/i.test(name)`, i.e. the lower-cased name ends in
`.heic` or `.heif`) or declared media type. -/
def isHEICFile (name mime : String) : Bool :=
  List.isSuffixOf ['.', 'h', 'e', 'i', 'c'] (name.data.map Char.toLower) ||
    List.isSuffixOf ['.', 'h', 'e', 'i', 'f'] (name.data.map Char.toLower) ||
    mime == "image/heic" || mime == "image/heif"

/-- Lines 780-795, with the three asynchronous tier attempts supplied as
oracle results and the `typeof VideoDecoder` availability test as a flag.
Returns the tiers actually attempted (in order) and the outcome: non-HEIC
files run tier 1 and then return tier 2's own result; HEIC files run the
three tiers (tier 3 only when `VideoDecoder` exists) and throw
`HEIC_UNSUPPORTED` when all attempted tiers failed. -/
def readImageToDataURL (name mime : String) (t1 t2 t3 : TierResult)
    (vdAvail : Bool) : List Tier × Outcome :=
  if !(isHEICFile name mime) then
    match t1 with
    | .ok v => ([.nativeBitmapDecode], .ok v)
    | .err _ =>
        match t2 with
        | .ok v => ([.nativeBitmapDecode, .tagBasedDecode], .ok v)
        | .err m => ([.nativeBitmapDecode, .tagBasedDecode], .tierError m)
  else
    match t1 with
    | .ok v => ([.nativeBitmapDecode], .ok v)
    | .err _ =>
        match t2 with
        | .ok v => ([.nativeBitmapDecode, .tagBasedDecode], .ok v)
        | .err _ =>
            if vdAvail then
              match t3 with
              | .ok v => ([.nativeBitmapDecode, .tagBasedDecode, .hevcManualDecode], .ok v)
              | .err _ =>
                  ([.nativeBitmapDecode, .tagBasedDecode, .hevcManualDecode], .heicUnsupported)
            else ([.nativeBitmapDecode, .tagBasedDecode], .heicUnsupported)

/-! ### Decode adapter completion guard (lines 870-880)

The `VideoDecoder` callbacks close over a `done` flag.  The observable
effects are modelled as counters: `completions` counts `res`/`rej` calls,
`draws` counts `ctx.drawImage`, `decCloses` counts `dec.close()`, and
`framesClosed` counts `frame.close()`. -/

structure AdapterState where
  done : Bool
  completions : Nat
  draws : Nat
  decCloses : Nat
  framesClosed : Nat
deriving DecidableEq

/-- Callback events the decode primitive can deliver: an output frame, an
error callback, or a rejection of `dec.flush()`. -/
inductive DecEvent where
  | output
  | error
  | flushError
deriving DecidableEq

/-- The callback bodies of lines 874-879: `output` draws, closes the frame
and decoder and resolves only when `done` is still false, and otherwise
only closes the frame; `error` and the flush rejection reject only when
`done` is still false. -/
def handleEvent (st : AdapterState) (ev : DecEvent) : AdapterState :=
  match ev with
  | .output =>
      if !st.done then
        ⟨true, st.completions + 1, st.draws + 1, st.decCloses + 1, st.framesClosed + 1⟩
      else ⟨st.done, st.completions, st.draws, st.decCloses, st.framesClosed + 1⟩
  | .error =>
      if !st.done then ⟨true, st.completions + 1, st.draws, st.decCloses, st.framesClosed⟩
      else st
  | .flushError =>
      if !st.done then ⟨true, st.completions + 1, st.draws, st.decCloses, st.framesClosed⟩
      else st

/-- `let done = false` (line 872): the state before any callback. -/
def initAdapter : AdapterState := ⟨false, 0, 0, 0, 0⟩

/-- Run the adapter's callbacks over an arbitrary event sequence. -/
def runAdapter (evs : List DecEvent) : AdapterState := evs.foldl handleEvent initAdapter

/-- Number of `output` callbacks in an event sequence. -/
def countOutputs (evs : List DecEvent) : Nat := (evs.filter (· = DecEvent.output)).length

/-! ## Theorems -/

theorem boxSizeHdr_snd_ge (d : List Nat) (e p : Nat) : 8 ≤ (boxSizeHdr d e p).2 := by
  simp only [boxSizeHdr]
  split <;> omega

theorem parseBoxesAux_nil (d : List Nat) (e p : Nat) (h : StopAt d e p) :
    parseBoxesAux d e p = [] := by
  by_cases h1 : p + 8 ≤ e
  · have h2 : (boxSizeHdr d e p).1 < (boxSizeHdr d e p).2 ∨ e < p + (boxSizeHdr d e p).1 := by
      rcases h with h | h
      · omega
      · exact h
    rw [parseBoxesAux, dif_pos h1, dif_pos h2]
  · rw [parseBoxesAux, dif_neg h1]

theorem parseBoxesAux_of_scan (d : List Nat) (e : Nat) :
    ∀ {p m : Nat} {l : List Box}, Scan d e p m l →
      parseBoxesAux d e p = l ++ parseBoxesAux d e m := by
  intro p m l h
  induction h with
  | refl p => simp
  | step p m l h1 h2 _h3 ih =>
      rw [parseBoxesAux, dif_pos h1, dif_neg h2, ih]
      simp

theorem scan_tiling (d : List Nat) (e : Nat) :
    ∀ {p m : Nat} {l : List Box}, Scan d e p m l → Tiling p m l := by
  intro p m l h
  induction h with
  | refl p => simp [Tiling]
  | step p m l h1 h2 _h3 ih =>
      have h8 := boxSizeHdr_snd_ge d e p
      exact ⟨rfl, by show p < p + (boxSizeHdr d e p).1; omega, ih⟩

theorem parseBoxesAux_bounds (d : List Nat) (e : Nat) :
    ∀ (n p : Nat), e - p ≤ n →
      8 * (parseBoxesAux d e p).length ≤ e - p ∧
      ∀ b ∈ parseBoxesAux d e p,
        p ≤ b.s ∧ b.s ≤ b.d ∧ b.d ≤ b.e ∧ b.e ≤ e ∧ b.s + 8 ≤ b.e := by
  intro n
  induction n with
  | zero =>
      intro p hp
      have h1 : ¬(p + 8 ≤ e) := by omega
      rw [parseBoxesAux, dif_neg h1]
      refine ⟨by simp, by simp⟩
  | succ n ih =>
      intro p hp
      by_cases h1 : p + 8 ≤ e
      · by_cases h2 : (boxSizeHdr d e p).1 < (boxSizeHdr d e p).2 ∨ e < p + (boxSizeHdr d e p).1
        · rw [parseBoxesAux, dif_pos h1, dif_pos h2]
          refine ⟨by simp, by simp⟩
        · rw [parseBoxesAux, dif_pos h1, dif_neg h2]
          have h8 := boxSizeHdr_snd_ge d e p
          push_neg at h2
          obtain ⟨hlen, hmem⟩ := ih (p + (boxSizeHdr d e p).1) (by omega)
          constructor
          · simp only [List.length_cons]
            omega
          · intro b hb
            rcases List.mem_cons.mp hb with hb | hb
            · subst hb
              exact ⟨le_refl p,
                by show p ≤ p + (boxSizeHdr d e p).2; omega,
                by show p + (boxSizeHdr d e p).2 ≤ p + (boxSizeHdr d e p).1; omega,
                by show p + (boxSizeHdr d e p).1 ≤ e; omega,
                by show p + 8 ≤ p + (boxSizeHdr d e p).1; omega⟩
            · obtain ⟨ha, hb2, hc, hd2, he⟩ := hmem b hb
              exact ⟨by omega, hb2, hc, hd2, he⟩
      · rw [parseBoxesAux, dif_neg h1]
        refine ⟨by simp, by simp⟩

theorem readBE_succ (d : List Nat) (p n : Nat) :
    readBE d p (n + 1) = readBE d p n * 256 + get8 d (p + n) := rfl

theorem readSz_readBE (d : List Nat) (p sz : Nat) (h : sz = 0 ∨ sz = 4 ∨ sz = 8) :
    readSz d p sz = readBE d p sz ∧ advSz sz = sz := by
  rcases h with h | h | h <;> subst h <;>
    refine ⟨?_, by simp [advSz]⟩
  · rfl
  · show r32 d p = _
    rw [show (4 : Nat) = 3 + 1 from rfl, readBE_succ, readBE_succ, readBE_succ, readBE_succ]
    simp only [readBE, r32, Nat.add_zero]
    ring
  · show r64 d p = _
    rw [show (8 : Nat) = 7 + 1 from rfl, readBE_succ, readBE_succ, readBE_succ, readBE_succ,
      readBE_succ, readBE_succ, readBE_succ, readBE_succ]
    simp only [readBE, r64, r32, Nat.add_zero]
    ring

theorem parseExtents_eq_spec (d : List Nat) (offSz lenSz pid id base : Nat)
    (ho : offSz = 0 ∨ offSz = 4 ∨ offSz = 8) (hl : lenSz = 0 ∨ lenSz = 4 ∨ lenSz = 8) :
    ∀ (n : Nat) (st : IlocState),
      parseExtents d offSz lenSz pid id base n st =
      specParseExtents d offSz lenSz pid id base n st := by
  intro n
  induction n with
  | zero => intro st; rfl
  | succ n ih =>
      intro st
      obtain ⟨hro, hao⟩ := readSz_readBE d st.ip offSz ho
      obtain ⟨hrl, hal⟩ := readSz_readBE d (st.ip + advSz offSz) lenSz hl
      simp only [parseExtents, specParseExtents]
      rw [hro, hao] at *
      rw [hrl, hal]
      exact ih _

theorem parseItems_eq_spec_aux (d : List Nat) (ilocVer offSz lenSz baseSz pid : Nat)
    (ho : offSz = 0 ∨ offSz = 4 ∨ offSz = 8) (hl : lenSz = 0 ∨ lenSz = 4 ∨ lenSz = 8)
    (hb : baseSz = 0 ∨ baseSz = 4 ∨ baseSz = 8) :
    ∀ (n : Nat) (st : IlocState),
      parseItems d ilocVer offSz lenSz baseSz pid n st =
      specParseItems d ilocVer offSz lenSz baseSz pid n st := by
  intro n
  induction n with
  | zero => intro st; rfl
  | succ n ih =>
      intro st
      simp only [parseItems, specParseItems]
      obtain ⟨hrb, hab⟩ := readSz_readBE d
        (st.ip + (if ilocVer < 2 then 2 else 4) + (if ilocVer = 1 ∨ ilocVer = 2 then 2 else 0) + 2)
        baseSz hb
      rw [hrb, hab, parseExtents_eq_spec d offSz lenSz pid _ _ ho hl]
      exact ih _

/-- C9: when the iloc entry matching the resolved primary item id declares
`n + 1` extents, the extent loop retains only the final extent seen: the
recorded chunk offset is the last extent's `base_offset + extent_offset`
and the recorded chunk length is the last extent's `extent_length` (read at
the last extent's position `st.ip + n * stride`), regardless of the values
of all earlier extents. -/
theorem parseExtents_last_wins (d : List Nat) (offSz lenSz pid base : Nat) :
    ∀ (n : Nat) (st : IlocState),
      (parseExtents d offSz lenSz pid pid base (n + 1) st).chunkOffset =
        ((base + readSz d (st.ip + n * (advSz offSz + advSz lenSz)) offSz : Nat) : Int) ∧
      (parseExtents d offSz lenSz pid pid base (n + 1) st).chunkLength =
        ((readSz d (st.ip + n * (advSz offSz + advSz lenSz) + advSz offSz) lenSz : Nat) : Int) := by
  intro n
  induction n with
  | zero =>
      intro st
      simp [parseExtents]
  | succ n ih =>
      intro st
      have step : parseExtents d offSz lenSz pid pid base (n + 1 + 1) st =
          parseExtents d offSz lenSz pid pid base (n + 1)
            ⟨st.ip + advSz offSz + advSz lenSz,
             ((base + readSz d st.ip offSz : Nat) : Int),
             ((readSz d (st.ip + advSz offSz) lenSz : Nat) : Int)⟩ := by
        show parseExtents d offSz lenSz pid pid base (Nat.succ (n + 1)) st = _
        rw [parseExtents.eq_2]
        simp
      rw [step]
      obtain ⟨ih1, ih2⟩ := ih ⟨st.ip + advSz offSz + advSz lenSz,
        ((base + readSz d st.ip offSz : Nat) : Int),
        ((readSz d (st.ip + advSz offSz) lenSz : Nat) : Int)⟩
      dsimp only at ih1 ih2
      have harg1 : st.ip + advSz offSz + advSz lenSz + n * (advSz offSz + advSz lenSz) =
          st.ip + (n + 1) * (advSz offSz + advSz lenSz) := by ring
      have harg2 : st.ip + advSz offSz + advSz lenSz + n * (advSz offSz + advSz lenSz) +
          advSz offSz = st.ip + (n + 1) * (advSz offSz + advSz lenSz) + advSz offSz := by
        rw [harg1]
      rw [harg1] at ih1
      rw [harg2] at ih2
      exact ⟨ih1, ih2⟩

theorem copyParts_spec :
    ∀ (parts : List (List Nat)) (off : Nat) (buf : List Nat),
      off + (parts.map List.length).sum ≤ buf.length →
      copyParts parts off buf =
        buf.take off ++ parts.flatten ++ buf.drop (off + (parts.map List.length).sum) := by
  intro parts
  induction parts with
  | nil =>
      intro off buf _
      simp [copyParts]
  | cons p ps ih =>
      intro off buf hle
      simp only [List.map_cons, List.sum_cons] at hle
      have hoff : off + p.length ≤ buf.length := by omega
      have hlen1 : (buf.take off ++ p).length = off + p.length := by
        simp only [List.length_append, List.length_take]
        omega
      have hlen2 : (buf.take off ++ p ++ buf.drop (off + p.length)).length = buf.length := by
        simp only [List.length_append, List.length_take, List.length_drop]
        omega
      simp only [copyParts, writeAt]
      rw [ih (off + p.length) (buf.take off ++ p ++ buf.drop (off + p.length))
        (by rw [hlen2]; omega)]
      have hA : (buf.take off ++ p ++ buf.drop (off + p.length)).take (off + p.length) =
          buf.take off ++ p := List.take_left' hlen1
      have hB : (buf.take off ++ p ++ buf.drop (off + p.length)).drop
            (off + p.length + (ps.map List.length).sum) =
          buf.drop (off + (p.length + (ps.map List.length).sum)) := by
        rw [show off + p.length + (ps.map List.length).sum =
            (buf.take off ++ p).length + (ps.map List.length).sum from by rw [hlen1]]
        rw [List.drop_append, List.drop_drop]
        congr 1
        omega
      rw [hA, hB]
      simp [List.append_assoc]

theorem foldl_length_sum (parts : List (List Nat)) :
    ∀ a : Nat, parts.foldl (fun n p => n + p.length) a = a + (parts.map List.length).sum := by
  induction parts with
  | nil => intro a; simp
  | cons p ps ih =>
      intro a
      simp only [List.foldl_cons, List.map_cons, List.sum_cons, ih]
      omega

theorem totLen_eq (parts : List (List Nat)) : totLen parts = (parts.map List.length).sum := by
  rw [totLen, foldl_length_sum]
  omega

theorem mkAnnexB_flatten (parts : List (List Nat)) : mkAnnexB parts = parts.flatten := by
  rw [mkAnnexB]
  rw [copyParts_spec parts 0 (List.replicate (totLen parts) 0)
    (by simp [totLen_eq])]
  simp [totLen_eq]

theorem flatten_flatMap_pair (l : List (List Nat)) :
    (l.flatMap (fun ps => [SC, ps])).flatten = (l.map (fun ps => SC ++ ps)).flatten := by
  induction l with
  | nil => rfl
  | cons p ps ih => simp [ih]

theorem handleEvent_inv (st : AdapterState) (ev : DecEvent)
    (h : st.completions ≤ 1 ∧ st.draws ≤ 1 ∧ st.decCloses ≤ 1 ∧
      (st.done = false → st.completions = 0 ∧ st.draws = 0 ∧ st.decCloses = 0)) :
    (handleEvent st ev).completions ≤ 1 ∧ (handleEvent st ev).draws ≤ 1 ∧
      (handleEvent st ev).decCloses ≤ 1 ∧
      ((handleEvent st ev).done = false →
        (handleEvent st ev).completions = 0 ∧ (handleEvent st ev).draws = 0 ∧
          (handleEvent st ev).decCloses = 0) := by
  obtain ⟨h1, h2, h3, h0⟩ := h
  cases hdone : st.done with
  | false =>
      obtain ⟨z1, z2, z3⟩ := h0 hdone
      cases ev <;> simp [handleEvent, hdone] <;> omega
  | true =>
      cases ev <;> simp [handleEvent, hdone] <;> omega

theorem foldl_handle_inv (evs : List DecEvent) :
    ∀ st : AdapterState,
      st.completions ≤ 1 ∧ st.draws ≤ 1 ∧ st.decCloses ≤ 1 ∧
        (st.done = false → st.completions = 0 ∧ st.draws = 0 ∧ st.decCloses = 0) →
      (evs.foldl handleEvent st).completions ≤ 1 ∧ (evs.foldl handleEvent st).draws ≤ 1 ∧
        (evs.foldl handleEvent st).decCloses ≤ 1 := by
  induction evs with
  | nil =>
      intro st h
      exact ⟨h.1, h.2.1, h.2.2.1⟩
  | cons ev evs ih =>
      intro st h
      simp only [List.foldl_cons]
      exact ih _ (handleEvent_inv st ev h)

theorem foldl_handle_frames (evs : List DecEvent) :
    ∀ st : AdapterState,
      (evs.foldl handleEvent st).framesClosed = st.framesClosed + countOutputs evs := by
  induction evs with
  | nil => intro st; simp [countOutputs]
  | cons ev evs ih =>
      intro st
      simp only [List.foldl_cons]
      rw [ih]
      cases ev <;> cases hdone : st.done <;>
        simp [handleEvent, hdone, countOutputs, List.filter_cons] <;> omega

theorem handleEvent_done (st : AdapterState) (ev : DecEvent) :
    (handleEvent st ev).done = true := by
  cases ev <;> cases hdone : st.done <;> simp [handleEvent, hdone]

theorem handleEvent_completions_ge (st : AdapterState) (ev : DecEvent)
    (h : st.done = true → 1 ≤ st.completions) : 1 ≤ (handleEvent st ev).completions := by
  cases ev <;> cases hdone : st.done <;> simp [handleEvent, hdone] <;>
    first
    | omega
    | exact h hdone

theorem foldl_handle_completes (evs : List DecEvent) :
    ∀ st : AdapterState, (st.done = true → 1 ≤ st.completions) → evs ≠ [] →
      1 ≤ (evs.foldl handleEvent st).completions := by
  induction evs with
  | nil => intro st _ h; exact absurd rfl h
  | cons ev evs ih =>
      intro st h _
      simp only [List.foldl_cons]
      cases hevs : evs with
      | nil =>
          simp only [List.foldl_nil]
          exact handleEvent_completions_ge st ev h
      | cons ev2 evs2 =>
          rw [← hevs]
          exact ih _ (fun _ => handleEvent_completions_ge st ev h) (by simp [hevs])

/-! ## Claims -/

/-- C1 (counterexample): the claimed example strings are wrong on the
code's letter tables — `profile_space = 0` maps to the empty letter (not
`A`), and `profile_space = 2` maps to `B` (not `C`), so the builder does
not produce `"hvc1.A1.4.L93.B0"` and `"hvc1.C2.4.H120.B0"` on the claimed
inputs. -/
theorem codecString_claim_counterexample :
    codecString 0 0 1 93 ≠ "hvc1.A1.4.L93.B0" ∧
    codecString 2 1 2 120 ≠ "hvc1.C2.4.H120.B0" := by
  constructor <;> decide

/-- C1 (amended): the codec identifier string builder, applied to
`profile_space=0, tier_flag=0, profile_idc=1, level_idc=93`, produces
`"hvc1.1.4.L93.B0"` (empty profile-space letter), and applied to
`profile_space=2, tier_flag=1, profile_idc=2, level_idc=120`, produces
`"hvc1.B2.4.H120.B0"`. -/
theorem codecString_examples :
    codecString 0 0 1 93 = "hvc1.1.4.L93.B0" ∧
    codecString 2 1 2 120 = "hvc1.B2.4.H120.B0" := by
  constructor <;> decide

/-- C2 (counterexample): the item parser does not read `length_size` bytes
for every nibble value 0-15: with `length_size = 2` (declared extent
length bytes `[0, 42]`, spec value 42) the code reads nothing and records
length 0, diverging from the spec-modelled parser. -/
theorem parseItems_bytewidth_counterexample :
    parseItems [0, 1, 0, 0, 0, 1, 0, 42] 0 0 2 0 1 1 ⟨0, -1, -1⟩ ≠
      specParseItems [0, 1, 0, 0, 0, 1, 0, 42] 0 0 2 0 1 1 ⟨0, -1, -1⟩ ∧
    (parseItems [0, 1, 0, 0, 0, 1, 0, 42] 0 0 2 0 1 1 ⟨0, -1, -1⟩).chunkLength = 0 ∧
    (specParseItems [0, 1, 0, 0, 0, 1, 0, 42] 0 0 2 0 1 1 ⟨0, -1, -1⟩).chunkLength = 42 := by
  refine ⟨by decide, by decide, by decide⟩

/-- C2 (amended): for declared size nibbles restricted to 0, 4 and 8, the
item loop behaves exactly as the spec describes: it reads
`base_offset_size` bytes as the item's base offset (0 for size 0), a
16-bit extent count, and per extent `offset_size` bytes as the extent
offset and `length_size` bytes as the extent length, recording
`base_offset + extent_offset` and `extent_length` for the primary item;
for all other nibble values the code reads 0 bytes and uses 0. -/
theorem parseItems_reads_sized_fields (d : List Nat) (ilocVer offSz lenSz baseSz pid : Nat)
    (ho : offSz = 0 ∨ offSz = 4 ∨ offSz = 8) (hl : lenSz = 0 ∨ lenSz = 4 ∨ lenSz = 8)
    (hb : baseSz = 0 ∨ baseSz = 4 ∨ baseSz = 8) (n : Nat) (st : IlocState) :
    parseItems d ilocVer offSz lenSz baseSz pid n st =
      specParseItems d ilocVer offSz lenSz baseSz pid n st :=
  parseItems_eq_spec_aux d ilocVer offSz lenSz baseSz pid ho hl hb n st

/-- C2 witness: the spec's own fixture — version 0, one item, one extent,
`base_offset_size = offset_size = length_size = 4`. -/
theorem parseItems_reads_sized_fields_witness :
    ((4 : Nat) = 0 ∨ (4 : Nat) = 4 ∨ (4 : Nat) = 8) ∧
    parseItems [0, 1, 0, 0, 0, 0, 1, 0, 0, 1, 0, 0, 0, 32, 0, 0, 0, 64] 0 4 4 4 1 1
        ⟨0, -1, -1⟩ =
      specParseItems [0, 1, 0, 0, 0, 0, 1, 0, 0, 1, 0, 0, 0, 32, 0, 0, 0, 64] 0 4 4 4 1 1
        ⟨0, -1, -1⟩ :=
  ⟨by decide, parseItems_reads_sized_fields
    [0, 1, 0, 0, 0, 0, 1, 0, 0, 1, 0, 0, 0, 32, 0, 0, 0, 64] 0 4 4 4 1
    (by decide) (by decide) (by decide) 1 ⟨0, -1, -1⟩⟩

/-- C3: for every sequence of parameter-set NALs, every chunk byte array
and every `nalLengthSize` in 1..4, the reformatter's output is exactly the
start-code-prefixed parameter-set NALs followed by the chunk walk's
start-code-prefixed NAL units (so parameter sets always precede picture
data), and the output's total length equals the sum of all emitted segment
lengths — no padding. -/
theorem buildAnnexB_structure (psNALs : List (List Nat)) (raw : List Nat) (n : Nat)
    (_h : n = 1 ∨ n = 2 ∨ n = 3 ∨ n = 4) :
    buildAnnexB psNALs raw n =
      (psNALs.map (fun ps => SC ++ ps)).flatten ++ (chunkParts raw n 0).flatten ∧
    (buildAnnexB psNALs raw n).length =
      ((reformatParts psNALs raw n).map List.length).sum := by
  have h1 : buildAnnexB psNALs raw n = (reformatParts psNALs raw n).flatten :=
    mkAnnexB_flatten _
  constructor
  · rw [h1, reformatParts, List.flatten_append, flatten_flatMap_pair]
  · rw [h1, List.length_flatten]

/-- C3 witness: the spec's fixture — parameter-set NALs of lengths 5 and
7, one chunk containing a single 10-byte NAL, `nalLengthSize = 4`. -/
theorem buildAnnexB_structure_witness :
    ((4 : Nat) = 1 ∨ (4 : Nat) = 2 ∨ (4 : Nat) = 3 ∨ (4 : Nat) = 4) ∧
    (buildAnnexB [[1, 2, 3, 4, 5], [6, 7, 8, 9, 10, 11, 12]]
        [0, 0, 0, 10, 21, 22, 23, 24, 25, 26, 27, 28, 29, 30] 4 =
      ([[1, 2, 3, 4, 5], [6, 7, 8, 9, 10, 11, 12]].map (fun ps => SC ++ ps)).flatten ++
        (chunkParts [0, 0, 0, 10, 21, 22, 23, 24, 25, 26, 27, 28, 29, 30] 4 0).flatten ∧
    (buildAnnexB [[1, 2, 3, 4, 5], [6, 7, 8, 9, 10, 11, 12]]
        [0, 0, 0, 10, 21, 22, 23, 24, 25, 26, 27, 28, 29, 30] 4).length =
      ((reformatParts [[1, 2, 3, 4, 5], [6, 7, 8, 9, 10, 11, 12]]
        [0, 0, 0, 10, 21, 22, 23, 24, 25, 26, 27, 28, 29, 30] 4).map List.length).sum) :=
  ⟨by decide, buildAnnexB_structure [[1, 2, 3, 4, 5], [6, 7, 8, 9, 10, 11, 12]]
    [0, 0, 0, 10, 21, 22, 23, 24, 25, 26, 27, 28, 29, 30] 4 (by decide)⟩

/-- The spec's reformatter fixture evaluated: the output buffer's length
is `4+5 + 4+7 + 4+10 = 34` and it begins with the start code followed by
the first parameter-set NAL's bytes verbatim. -/
theorem buildAnnexB_example_34 :
    (buildAnnexB [[1, 2, 3, 4, 5], [6, 7, 8, 9, 10, 11, 12]]
        [0, 0, 0, 10, 21, 22, 23, 24, 25, 26, 27, 28, 29, 30] 4).length = 34 ∧
    (buildAnnexB [[1, 2, 3, 4, 5], [6, 7, 8, 9, 10, 11, 12]]
        [0, 0, 0, 10, 21, 22, 23, 24, 25, 26, 27, 28, 29, 30] 4).take 9 =
      [0, 0, 0, 1, 1, 2, 3, 4, 5] := by
  have hc : chunkParts [0, 0, 0, 10, 21, 22, 23, 24, 25, 26, 27, 28, 29, 30] 4 0 =
      [SC, [21, 22, 23, 24, 25, 26, 27, 28, 29, 30]] := by
    rw [chunkParts]
    norm_num [nlFold, get8, sliceL, SC]
    rw [chunkParts]
    norm_num
  rw [show buildAnnexB [[1, 2, 3, 4, 5], [6, 7, 8, 9, 10, 11, 12]]
      [0, 0, 0, 10, 21, 22, 23, 24, 25, 26, 27, 28, 29, 30] 4 =
      (reformatParts [[1, 2, 3, 4, 5], [6, 7, 8, 9, 10, 11, 12]]
        [0, 0, 0, 10, 21, 22, 23, 24, 25, 26, 27, 28, 29, 30] 4).flatten
    from mkAnnexB_flatten _]
  rw [reformatParts, hc]
  constructor <;> decide

/-- C4: the fallback orchestrator attempts the tiers in the fixed order
NativeBitmapDecode, TagBasedDecode, HEVCManualDecode; non-HEIC files never
reach the HEVC tier; the HEVC tier is skipped when the decode primitive is
unavailable; it is attempted for HEIC files when available and both
earlier tiers fail; and the terminal HEICUnsupported outcome (a
constructor distinct from tier-internal errors) is reported exactly when
the file is classified as HEIC and every applicable tier has failed. -/
theorem readImageToDataURL_tiers (name mime : String) (t1 t2 t3 : TierResult) (vd : Bool) :
    ((readImageToDataURL name mime t1 t2 t3 vd).1 = [Tier.nativeBitmapDecode] ∨
     (readImageToDataURL name mime t1 t2 t3 vd).1 =
       [Tier.nativeBitmapDecode, Tier.tagBasedDecode] ∨
     (readImageToDataURL name mime t1 t2 t3 vd).1 =
       [Tier.nativeBitmapDecode, Tier.tagBasedDecode, Tier.hevcManualDecode]) ∧
    (isHEICFile name mime = false →
      Tier.hevcManualDecode ∉ (readImageToDataURL name mime t1 t2 t3 vd).1) ∧
    (vd = false → Tier.hevcManualDecode ∉ (readImageToDataURL name mime t1 t2 t3 vd).1) ∧
    (isHEICFile name mime = true → vd = true → (∃ m1, t1 = TierResult.err m1) →
      (∃ m2, t2 = TierResult.err m2) →
      Tier.hevcManualDecode ∈ (readImageToDataURL name mime t1 t2 t3 vd).1) ∧
    ((readImageToDataURL name mime t1 t2 t3 vd).2 = Outcome.heicUnsupported ↔
      isHEICFile name mime = true ∧ (∃ m1, t1 = TierResult.err m1) ∧
        (∃ m2, t2 = TierResult.err m2) ∧ (vd = true → ∃ m3, t3 = TierResult.err m3)) := by
  cases hh : isHEICFile name mime <;> cases t1 <;> cases t2 <;> cases vd <;> cases t3 <;>
    simp [readImageToDataURL, hh]

/-- C4 witness: a HEIC-named file with both cheap tiers failing and no
VideoDecoder available is reported as the terminal HEICUnsupported. -/
theorem readImageToDataURL_tiers_witness :
    (readImageToDataURL "a.heic" "" (TierResult.err "e1") (TierResult.err "e2")
      (TierResult.err "e3") false).2 = Outcome.heicUnsupported :=
  (readImageToDataURL_tiers "a.heic" "" (TierResult.err "e1") (TierResult.err "e2")
    (TierResult.err "e3") false).2.2.2.2.mpr
    ⟨by decide, ⟨"e1", rfl⟩, ⟨"e2", rfl⟩, by simp⟩

/-- C5: over every sequence of decoder callbacks, the adapter's
resolve/release path runs at most once — at most one completion
(resolve or reject), at most one draw, at most one decoder close — while
every delivered frame is closed (`framesClosed` equals the number of
output callbacks, so post-completion frames are still released); and once
the `done` guard is set, a further callback changes neither the completion
count nor the draw count and leaves the guard set. -/
theorem decodeAdapter_completes_once (evs : List DecEvent) (st : AdapterState)
    (ev : DecEvent) (h : st.done = true) :
    (runAdapter evs).completions ≤ 1 ∧ (runAdapter evs).draws ≤ 1 ∧
    (runAdapter evs).decCloses ≤ 1 ∧
    (evs ≠ [] → (runAdapter evs).completions = 1) ∧
    (runAdapter evs).framesClosed = countOutputs evs ∧
    (handleEvent st ev).completions = st.completions ∧
    (handleEvent st ev).draws = st.draws ∧
    (handleEvent st ev).done = true := by
  have hinv := foldl_handle_inv evs initAdapter (by simp [initAdapter])
  have hfr := foldl_handle_frames evs initAdapter
  have hge := foldl_handle_completes evs initAdapter (by simp [initAdapter])
  simp only [runAdapter]
  refine ⟨hinv.1, hinv.2.1, hinv.2.2, ?_, ?_, ?_, ?_, ?_⟩
  · intro hne
    have := hge hne
    have := hinv.1
    omega
  · rw [hfr]
    simp [initAdapter]
  · cases ev <;> simp [handleEvent, h]
  · cases ev <;> simp [handleEvent, h]
  · cases ev <;> simp [handleEvent, h]

/-- C5 witness: two outputs followed by an error still complete exactly
once, and a post-completion output is discarded. -/
theorem decodeAdapter_completes_once_witness :
    ((⟨true, 1, 1, 1, 1⟩ : AdapterState).done = true) ∧
    ((runAdapter [DecEvent.output, DecEvent.output, DecEvent.error]).completions ≤ 1 ∧
     (runAdapter [DecEvent.output, DecEvent.output, DecEvent.error]).draws ≤ 1 ∧
     (runAdapter [DecEvent.output, DecEvent.output, DecEvent.error]).decCloses ≤ 1 ∧
     (([DecEvent.output, DecEvent.output, DecEvent.error] : List DecEvent) ≠ [] →
       (runAdapter [DecEvent.output, DecEvent.output, DecEvent.error]).completions = 1) ∧
     (runAdapter [DecEvent.output, DecEvent.output, DecEvent.error]).framesClosed =
       countOutputs [DecEvent.output, DecEvent.output, DecEvent.error] ∧
     (handleEvent ⟨true, 1, 1, 1, 1⟩ DecEvent.output).completions =
       (⟨true, 1, 1, 1, 1⟩ : AdapterState).completions ∧
     (handleEvent ⟨true, 1, 1, 1, 1⟩ DecEvent.output).draws =
       (⟨true, 1, 1, 1, 1⟩ : AdapterState).draws ∧
     (handleEvent ⟨true, 1, 1, 1, 1⟩ DecEvent.output).done = true) :=
  ⟨rfl, decodeAdapter_completes_once [DecEvent.output, DecEvent.output, DecEvent.error]
    ⟨true, 1, 1, 1, 1⟩ DecEvent.output rfl⟩

/-- C6: for every valid size-prefixed box sequence over `[s, e)` — the
scan from `s` accepts each box (declared size at least the header length,
not overrunning `e`) and the declared sizes sum exactly to the range, as
witnessed by `Scan d e s e l` — `parseBoxes` returns exactly those boxes,
and their `[s, e)` ranges tile the input range with no gaps and no
overlaps. -/
theorem parseBoxes_tiles_valid (d : List Nat) (s e : Nat) (l : List Box)
    (h : Scan d e s e l) : parseBoxes d s e = l ∧ Tiling s e l := by
  refine ⟨?_, scan_tiling d e h⟩
  rw [parseBoxes, parseBoxesAux_of_scan d e h,
    parseBoxesAux_nil d e e (Or.inl (by omega)), List.append_nil]

/-- C6 witness: an 8-byte `ftyp` box followed by a 12-byte `free` box
tiles `[0, 20)`. -/
theorem parseBoxes_tiles_valid_witness :
    parseBoxes [0, 0, 0, 8, 102, 116, 121, 112, 0, 0, 0, 12, 102, 114, 101, 101, 9, 9, 9, 9]
        0 20 =
      [⟨"ftyp", 0, 8, 8⟩, ⟨"free", 8, 20, 16⟩] ∧
    Tiling 0 20 [⟨"ftyp", 0, 8, 8⟩, ⟨"free", 8, 20, 16⟩] :=
  parseBoxes_tiles_valid
    [0, 0, 0, 8, 102, 116, 121, 112, 0, 0, 0, 12, 102, 114, 101, 101, 9, 9, 9, 9] 0 20
    [⟨"ftyp", 0, 8, 8⟩, ⟨"free", 8, 20, 16⟩]
    (show Scan [0, 0, 0, 8, 102, 116, 121, 112, 0, 0, 0, 12, 102, 114, 101, 101, 9, 9, 9, 9]
        20 0 20 [⟨"ftyp", 0, 8, 8⟩, ⟨"free", 8, 20, 16⟩] from
      Scan.step 0 20 _ (by decide) (by decide)
        (Scan.step 8 20 _ (by decide) (by decide) (Scan.refl 20)))

/-- C7: when the scan (from `s`, having accepted the boxes `l` up to
position `m`) meets the stop condition at `m` — fewer than 8 bytes
remain, or the declared size is smaller than its header length, or the box
would extend past `e` — `parseBoxes` returns exactly the boxes
accumulated so far: the malformed trailing box is dropped and no error is
raised (the function is total). -/
theorem parseBoxes_drops_truncated (d : List Nat) (s e m : Nat) (l : List Box)
    (h : Scan d e s m l) (hstop : StopAt d e m) : parseBoxes d s e = l := by
  rw [parseBoxes, parseBoxesAux_of_scan d e h, parseBoxesAux_nil d e m hstop,
    List.append_nil]

/-- C7 witness: a well-formed 8-byte `ftyp` box followed by a trailing
box declaring size 100 in a 16-byte range parses to just the `ftyp`
box. -/
theorem parseBoxes_drops_truncated_witness :
    StopAt [0, 0, 0, 8, 102, 116, 121, 112, 0, 0, 0, 100, 109, 100, 97, 116] 16 8 ∧
    parseBoxes [0, 0, 0, 8, 102, 116, 121, 112, 0, 0, 0, 100, 109, 100, 97, 116] 0 16 =
      [⟨"ftyp", 0, 8, 8⟩] :=
  ⟨Or.inr (Or.inr (by decide)),
   parseBoxes_drops_truncated
     [0, 0, 0, 8, 102, 116, 121, 112, 0, 0, 0, 100, 109, 100, 97, 116] 0 16 8
     [⟨"ftyp", 0, 8, 8⟩]
     (show Scan [0, 0, 0, 8, 102, 116, 121, 112, 0, 0, 0, 100, 109, 100, 97, 116]
         16 0 8 [⟨"ftyp", 0, 8, 8⟩] from
       Scan.step 0 8 _ (by decide) (by decide) (Scan.refl 8))
     (Or.inr (Or.inr (by decide)))⟩

/-- C8: for every input buffer and every scan range whose end does not
exceed the buffer length, every box returned by `parseBoxes` satisfies
`start ≤ payloadStart ≤ end ≤ bufferLength` (fields `s ≤ d ≤ e ≤`
length), including on corrupt inputs and inputs using the extended 64-bit
size form or the size-0 to-end form. -/
theorem parseBoxes_invariant (d : List Nat) (s e : Nat) (h : e ≤ d.length) :
    ∀ b ∈ parseBoxes d s e, b.s ≤ b.d ∧ b.d ≤ b.e ∧ b.e ≤ d.length := by
  intro b hb
  rw [parseBoxes] at hb
  obtain ⟨-, hmem⟩ := parseBoxesAux_bounds d e (e - s) s (le_refl _)
  obtain ⟨-, h1, h2, h3, -⟩ := hmem b hb
  exact ⟨h1, h2, le_trans h3 h⟩

/-- C8 witness: a 16-byte extended-size box followed by a size-0 to-end
box in a 24-byte buffer. -/
theorem parseBoxes_invariant_witness :
    ((24 : Nat) ≤
      ([0, 0, 0, 1, 102, 116, 121, 112, 0, 0, 0, 0, 0, 0, 0, 16,
        0, 0, 0, 0, 109, 100, 97, 116] : List Nat).length) ∧
    ∀ b ∈ parseBoxes
        [0, 0, 0, 1, 102, 116, 121, 112, 0, 0, 0, 0, 0, 0, 0, 16,
         0, 0, 0, 0, 109, 100, 97, 116] 0 24,
      b.s ≤ b.d ∧ b.d ≤ b.e ∧
        b.e ≤ ([0, 0, 0, 1, 102, 116, 121, 112, 0, 0, 0, 0, 0, 0, 0, 16,
          0, 0, 0, 0, 109, 100, 97, 116] : List Nat).length :=
  ⟨by decide, parseBoxes_invariant
    [0, 0, 0, 1, 102, 116, 121, 112, 0, 0, 0, 0, 0, 0, 0, 16,
     0, 0, 0, 0, 109, 100, 97, 116] 0 24 (by decide)⟩

/-- C10: the `parseBoxes` scan terminates on every input: it is a total
function whose loop runs at most `(e - s) / 8` iterations because every
accepted box strictly advances the scan position by its declared size,
which is at least the 8-byte short header length (so `8 · #boxes ≤ e - s`
and each box spans at least 8 bytes); every other case exits the loop. -/
theorem parseBoxes_terminates_bound (d : List Nat) (s e : Nat) :
    8 * (parseBoxes d s e).length ≤ e - s ∧
    ∀ b ∈ parseBoxes d s e, b.s + 8 ≤ b.e := by
  obtain ⟨h1, hmem⟩ := parseBoxesAux_bounds d e (e - s) s (le_refl _)
  rw [parseBoxes]
  exact ⟨h1, fun b hb => (hmem b hb).2.2.2.2⟩

end Photobook
